import Mathlib

/-! # Number guessing game (main.go)

A shallow embedding of the Go program: the `Game` record, `NewGame`,
`Game.checkGuess`, `Game.getPlayerGuess`, the loop of `Game.Start` and
`askContinue`, together with the library functions they call
(`strings.TrimSpace`, `strings.ToLower`, `strconv.Atoi`, `bufio.Scanner`).

Conventions of the embedding.

* A line of text is the list of its Unicode code points (`List Char`); the
  program only ever sees text through `scanner.Text()`.
* A `bufio.Scanner` over standard input is the list of the lines it has not
  delivered yet.  `Scan` on the empty list reports failure and leaves the
  list empty, as the Go scanner does once it has met the end of its input.
* Go `int` is 64 bits wide.  An `int` value is the integer it denotes, and
  an operation that can leave the range wraps around in two's complement
  (`wrapInt`): this is the increment `g.attempts++`.  `strconv.Atoi` checks
  the range itself and reports an error.  The sum `rand.Intn(100) + 1` stays
  within 1..100.
* Standard output is the list of the messages printed, one constructor of
  `Output` per print statement of the program.
-/

namespace GuessGame

/-- A line of text, as delivered by `scanner.Text()`. -/
abbrev Line := List Char

deriving instance DecidableEq for Except

/-! ## Library functions -/

/-- Go `unicode.IsSpace`: in Latin-1 the characters tab, line feed, vertical
tab, form feed, carriage return, space, U+0085 and U+00A0; above Latin-1 the
code points of the Unicode property White_Space. -/
def isSpace (c : Char) : Bool :=
  let r := c.toNat
  if r ≤ 0xFF then
    r == 0x09 || r == 0x0A || r == 0x0B || r == 0x0C || r == 0x0D || r == 0x20
      || r == 0x85 || r == 0xA0
  else
    r == 0x1680 || (0x2000 ≤ r && r ≤ 0x200A) || r == 0x2028 || r == 0x2029
      || r == 0x202F || r == 0x205F || r == 0x3000

/-- Go `strings.TrimLeftFunc(s, unicode.IsSpace)`. -/
def trimLeft : Line → Line
  | [] => []
  | c :: cs => if isSpace c then trimLeft cs else c :: cs

/-- Go `strings.TrimSpace`: the text without its leading and trailing white
space. -/
def TrimSpace (s : Line) : Line :=
  (trimLeft (trimLeft s).reverse).reverse

/-- Go `unicode.ToLower`: the letters A..Z are mapped to a..z, every other
ASCII character is kept, and a character above ASCII is looked up in the
case tables of the `unicode` package, which are the parameter `caseTable`. -/
def toLowerRune (caseTable : Char → Char) (c : Char) : Char :=
  if c.toNat ≤ 0x7F then
    if 0x41 ≤ c.toNat ∧ c.toNat ≤ 0x5A then Char.ofNat (c.toNat + 0x20) else c
  else caseTable c

/-- Go `strings.ToLower`: every character mapped by `unicode.ToLower`. -/
def ToLower (caseTable : Char → Char) (s : Line) : Line :=
  s.map (toLowerRune caseTable)

/-- The two error values of package `strconv`. -/
inductive NumError where
  | ErrSyntax
  | ErrRange
  deriving DecidableEq, Repr

/-- The digit loop of `strconv.ParseUint(s, 10, 64)`: a byte that is not a
decimal digit is a syntax error, and a value that leaves 64 bits is a range
error, reported at the digit where it happens. -/
def parseUintLoop : Line → Nat → Except NumError Nat
  | [], n => .ok n
  | c :: cs, n =>
    if 0x30 ≤ c.toNat ∧ c.toNat ≤ 0x39 then
      let n1 := n * 10 + (c.toNat - 0x30)
      if n1 > 2 ^ 64 - 1 then .error .ErrRange else parseUintLoop cs n1
    else .error .ErrSyntax

/-- Go `strconv.ParseUint(s, 10, 64)`. -/
def ParseUint (s : Line) : Except NumError Nat :=
  if s = [] then .error .ErrSyntax else parseUintLoop s 0

/-- Go `strconv.Atoi` on a platform with 64-bit `int`, that is
`strconv.ParseInt(s, 10, 0)`: an optional sign, then decimal digits, and the
value has to fit in `int`. -/
def Atoi (s : Line) : Except NumError Int :=
  match s with
  | [] => .error .ErrSyntax
  | c :: cs =>
    let neg := c == '-'
    let digits := if c == '+' || c == '-' then cs else c :: cs
    match ParseUint digits with
    | .error .ErrSyntax => .error .ErrSyntax
    | .error .ErrRange => .error .ErrRange
    | .ok un =>
      if !neg && un ≥ 2 ^ 63 then .error .ErrRange
      else if neg && un > 2 ^ 63 then .error .ErrRange
      else .ok (if neg then -(un : Int) else (un : Int))

/-! ## The game -/

/-- The value of a Go `int` (64 bits, two's complement) holding the result of
an arithmetic operation whose exact result is `x`: `x` wrapped into the
range from -2^63 to 2^63 - 1. -/
def wrapInt (x : Int) : Int :=
  (x + 2 ^ 63) % 2 ^ 64 - 2 ^ 63

/-- The struct `Game`: the target number, the number of guesses made, and
the scanner over standard input (the lines it has not delivered yet). -/
structure Game where
  targetNumber : Int
  attempts : Int
  scanner : List Line
  deriving DecidableEq, Repr

/-- The four errors `getPlayerGuess` can return, named as in the
specification.  Their Go messages are, in this order, "读取输入失败",
"输入不能为空", "请输入一个有效的数字" and "数字必须在 1-100 之间". -/
inductive GuessError where
  | ReadFailure
  | EmptyInput
  | NotANumber
  | OutOfRange
  deriving DecidableEq, Repr

/-- What the program prints, one constructor per print statement. -/
inductive Output where
  /-- The two greeting lines at the start of `Start`. -/
  | welcome
  /-- The prompt "请输入你的猜测：" of `getPlayerGuess`. -/
  | guessPrompt
  /-- The line "输入错误：%v，请重新输入。" with the error returned. -/
  | inputError (err : GuessError)
  /-- The line "恭喜你！猜对了！你总共猜了 %d 次。" with the number of attempts. -/
  | correct (attempts : Int)
  /-- The line "太大了！请再试一次。". -/
  | tooHigh
  /-- The line "太小了！请再试一次。". -/
  | tooLow
  /-- The prompt "是否继续游戏？(y/n)：" of `askContinue`. -/
  | continuePrompt
  /-- The line "读取输入失败，默认退出游戏。". -/
  | continueReadFailure
  /-- The line "请输入 y(是) 或 n(否)。". -/
  | continueInvalid
  deriving DecidableEq, Repr

/-- Go `NewGame`.  The first argument is the value returned by
`rand.Intn(100)`, the second the content of standard input. -/
def NewGame (intn : Int) (stdin : List Line) : Game :=
  { targetNumber := intn + 1, attempts := 0, scanner := stdin }

/-- Go `Game.getPlayerGuess`: the result, the game afterwards (its scanner
has advanced by one line) and what was printed. -/
def getPlayerGuess (g : Game) : Except GuessError Int × Game × List Output :=
  match g.scanner with
  | [] => (.error .ReadFailure, g, [.guessPrompt])
  | line :: rest =>
    let g1 : Game := { g with scanner := rest }
    let input := TrimSpace line
    if input = [] then (.error .EmptyInput, g1, [.guessPrompt])
    else
      match Atoi input with
      | .error _ => (.error .NotANumber, g1, [.guessPrompt])
      | .ok guess =>
        if guess < 1 ∨ guess > 100 then (.error .OutOfRange, g1, [.guessPrompt])
        else (.ok guess, g1, [.guessPrompt])

/-- Go `Game.checkGuess`: the result and the game afterwards. -/
def checkGuess (g : Game) (guess : Int) : Int × Game :=
  if guess = g.targetNumber then (0, g)
  else if guess > g.targetNumber then (1, g)
  else (-1, g)

/-- One pass through the body of the `for` loop of `Game.Start`: the game
afterwards, what was printed, and whether the loop was left by `break`. -/
def startIteration (g : Game) : Game × List Output × Bool :=
  match getPlayerGuess g with
  | (.error err, g1, out) => (g1, out ++ [.inputError err], false)
  | (.ok guess, g1, out) =>
    let g2 : Game := { g1 with attempts := wrapInt (g1.attempts + 1) }
    let (result, g3) := checkGuess g2 guess
    if result = 0 then (g3, out ++ [.correct g3.attempts], true)
    else if result > 0 then (g3, out ++ [.tooHigh], false)
    else (g3, out ++ [.tooLow], false)

/-- The `for` loop of `Game.Start`, run for at most `fuel` passes: `none`
when the loop is still running after `fuel` passes, otherwise the game and
the output at the `break`. -/
def startLoop : Nat → Game → Option (Game × List Output)
  | 0, _ => none
  | fuel + 1, g =>
    match startIteration g with
    | (g1, out, true) => some (g1, out)
    | (g1, out, false) =>
      match startLoop fuel g1 with
      | none => none
      | some (g2, out2) => some (g2, out ++ out2)

/-- Go `Game.Start`, with the loop run for at most `fuel` passes. -/
def Start (fuel : Nat) (g : Game) : Option (Game × List Output) :=
  match startLoop fuel g with
  | none => none
  | some (g1, out) => some (g1, Output.welcome :: out)

/-- Go `askContinue`.  The first argument is the case table of
`strings.ToLower`, the second the lines its scanner delivers before the end
of input.  The result is the answer and what was printed. -/
def askContinue (caseTable : Char → Char) : List Line → Bool × List Output
  | [] => (false, [.continuePrompt, .continueReadFailure])
  | line :: rest =>
    let input := ToLower caseTable (TrimSpace line)
    if input = "y".toList ∨ input = "yes".toList ∨ input = "是".toList then
      (true, [.continuePrompt])
    else if input = "n".toList ∨ input = "no".toList ∨ input = "否".toList then
      (false, [.continuePrompt])
    else
      let (answer, out) := askContinue caseTable rest
      (answer, [.continuePrompt, .continueInvalid] ++ out)

/-- What `getPlayerGuess` returns when the next line of input is `line`. -/
def guessOf (line : Line) : Except GuessError Int :=
  (getPlayerGuess { targetNumber := 0, attempts := 0, scanner := [line] }).1

/-- The message `Start` prints for a valid guess `v` that is not the target
`t`. -/
def hint (t v : Int) : Output :=
  if v > t then .tooHigh else .tooLow

/-- The answers `askContinue` takes for "yes". -/
def affirmative : List Line := ["y".toList, "yes".toList, "是".toList]

/-- The answers `askContinue` takes for "no". -/
def negative : List Line := ["n".toList, "no".toList, "否".toList]

/-- The text `askContinue` compares with its tokens: the line trimmed, then
lower-cased. -/
def normalize (caseTable : Char → Char) (line : Line) : Line :=
  ToLower caseTable (TrimSpace line)

/-! ## Decimal numerals

A reading of "the text parses as an integer" that does not go through the
parser of `strconv`: the text is an optional sign followed by at least one
decimal digit, and its value is the usual one, without any bound. -/

/-- The character is one of the decimal digits 0..9. -/
def isDigit (c : Char) : Bool :=
  0x30 ≤ c.toNat && c.toNat ≤ 0x39

/-- The value of a string of decimal digits, most significant digit first,
starting from the value `n` of the digits already read. -/
def digitsValue : Line → Nat → Nat
  | [], n => n
  | c :: cs, n => digitsValue cs (n * 10 + (c.toNat - 0x30))

/-- The integer a text denotes when it is an optional sign followed by at
least one decimal digit, and `none` for any other text. -/
def integerOfText (s : Line) : Option Int :=
  match s with
  | [] => none
  | c :: cs =>
    let digits := if c = '+' ∨ c = '-' then cs else c :: cs
    if digits ≠ [] ∧ digits.all isDigit = true then
      some (if c = '-' then -(digitsValue digits 0 : Int) else (digitsValue digits 0 : Int))
    else none

/-! ## Basic facts -/

theorem getPlayerGuess_nil (t a : Int) :
    getPlayerGuess ⟨t, a, []⟩ = (.error .ReadFailure, ⟨t, a, []⟩, [.guessPrompt]) := rfl

theorem getPlayerGuess_cons (t a : Int) (line : Line) (rest : List Line) :
    getPlayerGuess ⟨t, a, line :: rest⟩ = (guessOf line, ⟨t, a, rest⟩, [.guessPrompt]) := by
  simp only [getPlayerGuess, guessOf]
  split_ifs
  · rfl
  · split
    · rfl
    · split_ifs <;> rfl

theorem startIteration_nil (t a : Int) :
    startIteration ⟨t, a, []⟩ =
      (⟨t, a, []⟩, [.guessPrompt, .inputError .ReadFailure], false) := rfl

theorem startIteration_cons_error (t a : Int) (line : Line) (rest : List Line)
    (e : GuessError) (h : guessOf line = .error e) :
    startIteration ⟨t, a, line :: rest⟩ =
      (⟨t, a, rest⟩, [.guessPrompt, .inputError e], false) := by
  simp [startIteration, getPlayerGuess_cons, h]

theorem wrapInt_of_range (x : Int) (h1 : -(2 ^ 63 : Int) ≤ x) (h2 : x < 2 ^ 63) :
    wrapInt x = x := by
  unfold wrapInt
  omega

theorem wrapInt_wrapInt_add (x y : Int) : wrapInt (wrapInt x + y) = wrapInt (x + y) := by
  unfold wrapInt
  omega

theorem startIteration_cons_hit (t a : Int) (line : Line) (rest : List Line)
    (h : guessOf line = .ok t) :
    startIteration ⟨t, a, line :: rest⟩ =
      (⟨t, wrapInt (a + 1), rest⟩, [.guessPrompt, .correct (wrapInt (a + 1))], true) := by
  simp [startIteration, getPlayerGuess_cons, h, checkGuess]

theorem startIteration_cons_miss (t a v : Int) (line : Line) (rest : List Line)
    (h : guessOf line = .ok v) (hv : v ≠ t) :
    startIteration ⟨t, a, line :: rest⟩ =
      (⟨t, wrapInt (a + 1), rest⟩, [.guessPrompt, hint t v], false) := by
  simp only [startIteration, getPlayerGuess_cons, h, checkGuess, hint, if_neg hv]
  by_cases hgt : v > t
  · simp [hgt]
  · simp [hgt]

/-! ## strconv.Atoi against decimal numerals -/

theorem le_digitsValue (s : Line) (n : Nat) : n ≤ digitsValue s n := by
  induction s generalizing n with
  | nil => exact le_refl n
  | cons c cs ih =>
    have := ih (n * 10 + (c.toNat - 0x30))
    simp only [digitsValue]
    omega

theorem parseUintLoop_ok_iff (s : Line) (n v : Nat) :
    parseUintLoop s n = .ok v ↔
      s.all isDigit = true ∧ digitsValue s n = v ∧ (s ≠ [] → v ≤ 2 ^ 64 - 1) := by
  induction s generalizing n with
  | nil => simp [parseUintLoop, digitsValue]
  | cons c cs ih =>
    simp only [parseUintLoop, digitsValue, List.all_cons, Bool.and_eq_true, isDigit,
      decide_eq_true_eq, ne_eq, reduceCtorEq, not_false_eq_true, true_implies]
    by_cases hd : 0x30 ≤ c.toNat ∧ c.toNat ≤ 0x39
    · rw [if_pos hd]
      by_cases hr : n * 10 + (c.toNat - 0x30) > 2 ^ 64 - 1
      · rw [if_pos hr]
        have := le_digitsValue cs (n * 10 + (c.toNat - 0x30))
        constructor
        · intro h; cases h
        · rintro ⟨-, hv, hle⟩
          omega
      · rw [if_neg hr, ih]
        constructor
        · rintro ⟨h1, h2, h3⟩
          refine ⟨⟨hd, h1⟩, h2, ?_⟩
          by_cases hcs : cs = []
          · subst hcs
            simp only [digitsValue] at h2
            omega
          · exact h3 hcs
        · rintro ⟨⟨-, h1⟩, h2, h3⟩
          exact ⟨h1, h2, fun _ => h3⟩
    · rw [if_neg hd]
      constructor
      · intro h; cases h
      · rintro ⟨⟨h1, -⟩, -⟩
        exact absurd h1 hd

theorem ParseUint_ok_iff (s : Line) (v : Nat) :
    ParseUint s = .ok v ↔
      s ≠ [] ∧ s.all isDigit = true ∧ digitsValue s 0 = v ∧ v ≤ 2 ^ 64 - 1 := by
  unfold ParseUint
  by_cases hs : s = []
  · simp [hs]
  · rw [if_neg hs, parseUintLoop_ok_iff]
    constructor
    · rintro ⟨h1, h2, h3⟩
      exact ⟨hs, h1, h2, h3 hs⟩
    · rintro ⟨-, h1, h2, h3⟩
      exact ⟨h1, h2, fun _ => h3⟩

/-- The outcome of `Atoi` in terms of the outcome of `ParseUint` on the text
after the sign. -/
theorem Atoi_cons_ok_iff (c : Char) (cs : Line) (n : Int) :
    Atoi (c :: cs) = .ok n ↔
      ∃ un : Nat, ParseUint (if c = '+' ∨ c = '-' then cs else c :: cs) = .ok un ∧
        (if c = '-' then un ≤ 2 ^ 63 ∧ n = -(un : Int) else un < 2 ^ 63 ∧ n = (un : Int)) := by
  simp only [Atoi, Bool.or_eq_true, beq_iff_eq]
  rcases hp : ParseUint (if c = '+' ∨ c = '-' then cs else c :: cs) with e | un
  · cases e <;> simp
  · by_cases hneg : c = '-'
    · subst hneg
      simp only [beq_self_eq_true, Bool.not_true, Bool.false_and, Bool.false_eq_true,
        if_false, Bool.true_and, decide_eq_true_eq, if_true, Except.ok.injEq, exists_eq_left']
      by_cases hr : un > 2 ^ 63
      · rw [if_pos hr]
        constructor
        · intro h; cases h
        · rintro ⟨h, -⟩; omega
      · rw [if_neg hr]
        simp only [Except.ok.injEq]
        constructor
        · intro h; exact ⟨by omega, h.symm⟩
        · rintro ⟨-, h⟩; exact h.symm
    · have hb : (c == '-') = false := by simpa using hneg
      simp only [hb, Bool.not_false, Bool.true_and, decide_eq_true_eq, Bool.false_and,
        Bool.false_eq_true, if_false, hneg, Except.ok.injEq, exists_eq_left']
      by_cases hr : un ≥ 2 ^ 63
      · rw [if_pos hr]
        constructor
        · intro h; cases h
        · rintro ⟨h, -⟩; omega
      · rw [if_neg hr]
        simp only [Except.ok.injEq]
        constructor
        · intro h; exact ⟨by omega, h.symm⟩
        · rintro ⟨-, h⟩; exact h.symm

/-- `Atoi` succeeds with `n` exactly on the decimal numerals of value `n`
that fit in a 64-bit `int`. -/
theorem Atoi_ok_iff (s : Line) (n : Int) :
    Atoi s = .ok n ↔
      integerOfText s = some n ∧ -(2 ^ 63 : Int) ≤ n ∧ n ≤ 2 ^ 63 - 1 := by
  cases s with
  | nil => simp [Atoi, integerOfText]
  | cons c cs =>
    rw [Atoi_cons_ok_iff]
    simp only [integerOfText, ParseUint_ok_iff]
    by_cases hneg : c = '-'
    · subst hneg
      simp only [or_true, if_true]
      constructor
      · rintro ⟨un, ⟨h1, h2, h3, -⟩, h5, h6⟩
        subst h3 h6
        rw [if_pos ⟨h1, h2⟩]
        refine ⟨rfl, ?_, ?_⟩ <;> omega
      · rintro ⟨h1, h2, h3⟩
        split_ifs at h1 with hd
        simp only [Option.some.injEq] at h1
        refine ⟨digitsValue cs 0, ⟨hd.1, hd.2, rfl, ?_⟩, ?_, h1.symm⟩ <;> omega
    · simp only [hneg, or_false, if_false]
      generalize (if c = '+' then cs else c :: cs) = ds
      constructor
      · rintro ⟨un, ⟨h1, h2, h3, -⟩, h5, h6⟩
        subst h3 h6
        rw [if_pos ⟨h1, h2⟩]
        refine ⟨rfl, ?_, ?_⟩ <;> omega
      · rintro ⟨h1, h2, h3⟩
        split_ifs at h1 with hd
        simp only [Option.some.injEq] at h1
        refine ⟨digitsValue ds 0, ⟨hd.1, hd.2, rfl, ?_⟩, ?_, h1.symm⟩ <;> omega

/-! ## checkGuess and NewGame -/

/-- C1: for every game and every guess, `checkGuess` returns 0 exactly when
the guess equals the target, a positive value exactly when the guess is
greater, a negative value exactly when it is smaller, and it leaves the game
(target, attempt counter, scanner) as it was. -/
theorem checkGuess_three_way (g : Game) (guess : Int) :
    ((checkGuess g guess).1 = 0 ↔ guess = g.targetNumber) ∧
    ((checkGuess g guess).1 > 0 ↔ guess > g.targetNumber) ∧
    ((checkGuess g guess).1 < 0 ↔ guess < g.targetNumber) ∧
    (checkGuess g guess).2 = g := by
  unfold checkGuess
  split_ifs with h1 h2
  · subst h1; simp
  · refine ⟨?_, ?_, ?_, rfl⟩
    · simp [h1]
    · simp [h2]
    · simp; omega
  · refine ⟨?_, ?_, ?_, rfl⟩
    · simp [h1]
    · simp [h2]
    · simp; omega

theorem checkGuess_three_way_witness :
    (checkGuess ⟨50, 0, []⟩ 50).1 = 0 ∧
    (checkGuess ⟨50, 0, []⟩ 75).1 > 0 ∧
    (checkGuess ⟨50, 0, []⟩ 25).1 < 0 :=
  ⟨(checkGuess_three_way ⟨50, 0, []⟩ 50).1.mpr rfl,
   (checkGuess_three_way ⟨50, 0, []⟩ 75).2.1.mpr (by decide),
   (checkGuess_three_way ⟨50, 0, []⟩ 25).2.2.1.mpr (by decide)⟩

/-- C2: for every value `r` with 0 ≤ r < 100 returned by `rand.Intn(100)`,
the game built by `NewGame` has target `r + 1`, which lies in 1..100, and
zero attempts. -/
theorem NewGame_target_and_attempts (r : Int) (stdin : List Line)
    (h0 : 0 ≤ r) (h100 : r < 100) :
    (NewGame r stdin).targetNumber = r + 1 ∧
    1 ≤ (NewGame r stdin).targetNumber ∧
    (NewGame r stdin).targetNumber ≤ 100 ∧
    (NewGame r stdin).attempts = 0 := by
  refine ⟨rfl, ?_, ?_, rfl⟩
  · show 1 ≤ r + 1
    omega
  · show r + 1 ≤ 100
    omega

theorem NewGame_target_and_attempts_witness :
    (NewGame 99 []).targetNumber = 99 + 1 ∧
    1 ≤ (NewGame 99 []).targetNumber ∧
    (NewGame 99 []).targetNumber ≤ 100 ∧
    (NewGame 99 []).attempts = 0 :=
  NewGame_target_and_attempts 99 [] (by decide) (by decide)

/-! ## getPlayerGuess -/

theorem guessOf_eq (line : Line) :
    guessOf line =
      if TrimSpace line = [] then .error .EmptyInput
      else
        match Atoi (TrimSpace line) with
        | .error _ => .error .NotANumber
        | .ok guess =>
          if guess < 1 ∨ guess > 100 then .error .OutOfRange else .ok guess := by
  simp only [guessOf, getPlayerGuess]
  split_ifs
  · rfl
  · split
    · rfl
    · split_ifs <;> rfl

theorem guessOf_ok_iff (line : Line) (n : Int) :
    guessOf line = .ok n ↔ Atoi (TrimSpace line) = .ok n ∧ 1 ≤ n ∧ n ≤ 100 := by
  rw [guessOf_eq]
  by_cases he : TrimSpace line = []
  · simp [he, Atoi]
  · rw [if_neg he]
    rcases hp : Atoi (TrimSpace line) with e | v
    · simp
    · by_cases hr : v < 1 ∨ v > 100
      · simp only [if_pos hr, reduceCtorEq, Except.ok.injEq, false_iff, not_and]
        rintro rfl
        omega
      · simp only [if_neg hr, Except.ok.injEq]
        constructor
        · rintro rfl
          exact ⟨rfl, by omega, by omega⟩
        · exact fun h => h.1

/-- C3: when a line is read, `getPlayerGuess` succeeds with `n` exactly when
the trimmed line parses (`strconv.Atoi`) as the integer `n` and `n` lies in
1..100; equivalently, exactly when the trimmed line is a decimal numeral of
value `n` in 1..100.  Every guess returned lies in 1..100. -/
theorem getPlayerGuess_ok_iff (t a : Int) (line : Line) (rest : List Line) (n : Int) :
    ((getPlayerGuess ⟨t, a, line :: rest⟩).1 = .ok n ↔
      Atoi (TrimSpace line) = .ok n ∧ 1 ≤ n ∧ n ≤ 100) ∧
    ((getPlayerGuess ⟨t, a, line :: rest⟩).1 = .ok n ↔
      integerOfText (TrimSpace line) = some n ∧ 1 ≤ n ∧ n ≤ 100) ∧
    ((getPlayerGuess ⟨t, a, line :: rest⟩).1 = .ok n → 1 ≤ n ∧ n ≤ 100) := by
  have key : (getPlayerGuess ⟨t, a, line :: rest⟩).1 = .ok n ↔
      Atoi (TrimSpace line) = .ok n ∧ 1 ≤ n ∧ n ≤ 100 := by
    rw [getPlayerGuess_cons]
    exact guessOf_ok_iff line n
  refine ⟨key, ?_, fun h => (key.mp h).2⟩
  rw [key, Atoi_ok_iff]
  constructor
  · rintro ⟨⟨h, -, -⟩, h1, h2⟩
    exact ⟨h, h1, h2⟩
  · rintro ⟨h, h1, h2⟩
    exact ⟨⟨h, by omega, by omega⟩, h1, h2⟩

theorem getPlayerGuess_ok_iff_witness :
    (getPlayerGuess ⟨50, 0, ["57".toList]⟩).1 = .ok 57 ∧
    (getPlayerGuess ⟨50, 0, [" 57\t".toList, "1".toList]⟩).1 = .ok 57 :=
  ⟨(getPlayerGuess_ok_iff 50 0 "57".toList [] 57).1.mpr (by decide),
   (getPlayerGuess_ok_iff 50 0 " 57\t".toList ["1".toList] 57).2.1.mpr (by decide)⟩

theorem guessOf_error_iff (line : Line) :
    (guessOf line = .error .EmptyInput ↔ TrimSpace line = []) ∧
    (guessOf line = .error .NotANumber ↔
      TrimSpace line ≠ [] ∧ ∀ n, Atoi (TrimSpace line) ≠ .ok n) ∧
    (guessOf line = .error .OutOfRange ↔
      TrimSpace line ≠ [] ∧ ∃ n, Atoi (TrimSpace line) = .ok n ∧ (n < 1 ∨ n > 100)) ∧
    guessOf line ≠ .error .ReadFailure := by
  rw [guessOf_eq]
  by_cases he : TrimSpace line = []
  · simp [he]
  · rw [if_neg he]
    rcases hp : Atoi (TrimSpace line) with e | v
    · simp [he]
    · by_cases hr : v < 1 ∨ v > 100
      · simp [he, hr]
      · simp [he, hr]

theorem integerOfText_nil : integerOfText [] = none := rfl

/-- C4 (amended): when a line is read, `getPlayerGuess` fails with EmptyInput
exactly when the trimmed line is empty; with NotANumber exactly when the
trimmed line is not empty and is not a decimal numeral (optional sign, then
digits) whose value fits in a 64-bit `int`, so a numeral beyond that range
is NotANumber; with OutOfRange exactly when the trimmed line is a decimal
numeral whose value fits in `int` and is below 1 or above 100; and never
with ReadFailure.  The three conditions exclude one another, so a failure
has exactly one kind. -/
theorem getPlayerGuess_error_iff (t a : Int) (line : Line) (rest : List Line) :
    ((getPlayerGuess ⟨t, a, line :: rest⟩).1 = .error .EmptyInput ↔
      TrimSpace line = []) ∧
    ((getPlayerGuess ⟨t, a, line :: rest⟩).1 = .error .NotANumber ↔
      TrimSpace line ≠ [] ∧
        ∀ n, integerOfText (TrimSpace line) = some n → n < -(2 ^ 63) ∨ n > 2 ^ 63 - 1) ∧
    ((getPlayerGuess ⟨t, a, line :: rest⟩).1 = .error .OutOfRange ↔
      ∃ n, integerOfText (TrimSpace line) = some n ∧
        (-(2 ^ 63) ≤ n ∧ n ≤ 2 ^ 63 - 1) ∧ (n < 1 ∨ n > 100)) ∧
    (getPlayerGuess ⟨t, a, line :: rest⟩).1 ≠ .error .ReadFailure := by
  rw [getPlayerGuess_cons]
  obtain ⟨h1, h2, h3, h4⟩ := guessOf_error_iff line
  refine ⟨h1, ?_, ?_, h4⟩
  · rw [h2]
    constructor
    · rintro ⟨he, hn⟩
      refine ⟨he, fun n hi => ?_⟩
      by_contra hb
      exact hn n ((Atoi_ok_iff _ n).mpr ⟨hi, by omega, by omega⟩)
    · rintro ⟨he, hn⟩
      refine ⟨he, fun n hA => ?_⟩
      obtain ⟨hi, hlo, hhi⟩ := (Atoi_ok_iff _ n).mp hA
      rcases hn n hi with h | h <;> omega
  · rw [h3]
    constructor
    · rintro ⟨-, n, hA, hr⟩
      obtain ⟨hi, hlo, hhi⟩ := (Atoi_ok_iff _ n).mp hA
      exact ⟨n, hi, ⟨hlo, hhi⟩, hr⟩
    · rintro ⟨n, hi, ⟨hlo, hhi⟩, hr⟩
      refine ⟨?_, n, (Atoi_ok_iff _ n).mpr ⟨hi, hlo, hhi⟩, hr⟩
      intro he
      rw [he, integerOfText_nil] at hi
      cases hi

theorem getPlayerGuess_error_iff_witness :
    (getPlayerGuess ⟨50, 0, ["".toList]⟩).1 = .error .EmptyInput ∧
    (getPlayerGuess ⟨50, 0, ["abc".toList]⟩).1 = .error .NotANumber ∧
    (getPlayerGuess ⟨50, 0, ["0".toList]⟩).1 = .error .OutOfRange ∧
    (getPlayerGuess ⟨50, 0, ["101".toList]⟩).1 = .error .OutOfRange ∧
    (getPlayerGuess ⟨50, 0, ["9223372036854775808".toList]⟩).1 = .error .NotANumber :=
  ⟨(getPlayerGuess_error_iff 50 0 "".toList []).1.mpr (by decide),
   (getPlayerGuess_error_iff 50 0 "abc".toList []).2.1.mpr
     ⟨by decide, fun n h => absurd (h.symm.trans (show integerOfText (TrimSpace "abc".toList) =
       none by decide)) (by simp)⟩,
   (getPlayerGuess_error_iff 50 0 "0".toList []).2.2.1.mpr
     ⟨0, by decide, by decide, by decide⟩,
   (getPlayerGuess_error_iff 50 0 "101".toList []).2.2.1.mpr
     ⟨101, by decide, by decide, by decide⟩,
   (getPlayerGuess_error_iff 50 0 "9223372036854775808".toList []).2.1.mpr
     ⟨by decide, fun n h => Or.inr (by
       have h2 : integerOfText (TrimSpace "9223372036854775808".toList) =
           some 9223372036854775808 := by decide
       rw [h2] at h
       simp only [Option.some.injEq] at h
       omega)⟩⟩

/-- C4 as stated fails on the line "9223372036854775808": the trimmed text is
a decimal numeral, so it parses as an integer, and that integer is above
100; yet `getPlayerGuess` answers NotANumber and not OutOfRange, because
`strconv.Atoi` reports a range error for a value beyond `int`. -/
theorem getPlayerGuess_error_iff_counterexample :
    integerOfText (TrimSpace "9223372036854775808".toList) = some 9223372036854775808 ∧
    (9223372036854775808 : Int) > 100 ∧
    Atoi (TrimSpace "9223372036854775808".toList) = .error .ErrRange ∧
    (getPlayerGuess ⟨50, 0, ["9223372036854775808".toList]⟩).1 = .error .NotANumber ∧
    (getPlayerGuess ⟨50, 0, ["9223372036854775808".toList]⟩).1 ≠ .error .OutOfRange := by
  refine ⟨by decide, by decide, by decide, by decide, by decide⟩

/-! ## The loop of Start -/

/-- C5 (amended): for every game, one pass of the loop of `Start` keeps the
target; it keeps the attempt counter when `getPlayerGuess` fails, whatever
the error; when `getPlayerGuess` succeeds the counter becomes the Go `int`
increment of its value, which is exactly one more whenever the counter is
an `int` below the largest one, 2^63 - 1. -/
theorem startIteration_attempts (g : Game) :
    (startIteration g).1.targetNumber = g.targetNumber ∧
    (∀ e, (getPlayerGuess g).1 = .error e →
      (startIteration g).1.attempts = g.attempts) ∧
    (∀ v, (getPlayerGuess g).1 = .ok v →
      (startIteration g).1.attempts = wrapInt (g.attempts + 1)) ∧
    (∀ v, (getPlayerGuess g).1 = .ok v →
      -(2 ^ 63 : Int) ≤ g.attempts → g.attempts < 2 ^ 63 - 1 →
      (startIteration g).1.attempts = g.attempts + 1) := by
  have hwrap : ∀ v, (getPlayerGuess g).1 = .ok v →
      (startIteration g).1.attempts = wrapInt (g.attempts + 1) := by
    obtain ⟨t, a, sc⟩ := g
    cases sc with
    | nil =>
      intro v h
      rw [getPlayerGuess_nil] at h
      cases h
    | cons line rest =>
      intro v h
      rw [getPlayerGuess_cons] at h
      have hg : guessOf line = .ok v := h
      by_cases hv : v = t
      · subst hv
        rw [startIteration_cons_hit v a line rest hg]
      · rw [startIteration_cons_miss t a v line rest hg hv]
  refine ⟨?_, ?_, hwrap, ?_⟩
  · obtain ⟨t, a, sc⟩ := g
    cases sc with
    | nil => rw [startIteration_nil]
    | cons line rest =>
      rcases hg : guessOf line with e | v
      · rw [startIteration_cons_error t a line rest e hg]
      · by_cases hv : v = t
        · subst hv
          rw [startIteration_cons_hit v a line rest hg]
        · rw [startIteration_cons_miss t a v line rest hg hv]
  · obtain ⟨t, a, sc⟩ := g
    cases sc with
    | nil =>
      intro e _
      rw [startIteration_nil]
    | cons line rest =>
      intro e h
      rw [getPlayerGuess_cons] at h
      have hg : guessOf line = .error e := h
      rw [startIteration_cons_error t a line rest e hg]
  · intro v h h1 h2
    rw [hwrap v h]
    exact wrapInt_of_range _ (by omega) (by omega)

theorem startIteration_attempts_witness :
    (startIteration ⟨50, 7, ["abc".toList]⟩).1.attempts = 7 ∧
    (startIteration ⟨50, 7, ["80".toList]⟩).1.attempts = 7 + 1 ∧
    (startIteration ⟨50, 7, []⟩).1.attempts = 7 ∧
    (startIteration ⟨50, 2 ^ 63 - 2, ["50".toList]⟩).1.attempts = 2 ^ 63 - 2 + 1 :=
  ⟨(startIteration_attempts ⟨50, 7, ["abc".toList]⟩).2.1 .NotANumber (by decide),
   (startIteration_attempts ⟨50, 7, ["80".toList]⟩).2.2.2 80 (by decide) (by decide)
     (by decide),
   (startIteration_attempts ⟨50, 7, []⟩).2.1 .ReadFailure (by decide),
   (startIteration_attempts ⟨50, 2 ^ 63 - 2, ["50".toList]⟩).2.2.2 50 (by decide)
     (by decide) (by decide)⟩

/-- C5 as stated fails when the attempt counter holds the largest `int`:
the line "80" is a valid guess, and the pass of the loop changes the counter
from 2^63 - 1 to -2^63 instead of adding one. -/
theorem startIteration_attempts_counterexample :
    (getPlayerGuess ⟨50, 2 ^ 63 - 1, ["80".toList]⟩).1 = .ok 80 ∧
    (startIteration ⟨50, 2 ^ 63 - 1, ["80".toList]⟩).1.attempts = -(2 ^ 63) ∧
    (startIteration ⟨50, 2 ^ 63 - 1, ["80".toList]⟩).1.attempts ≠ (2 ^ 63 - 1) + 1 := by
  refine ⟨by decide, by decide, by decide⟩

theorem startIteration_break_iff (g : Game) :
    (startIteration g).2.2 = true ↔ (getPlayerGuess g).1 = .ok g.targetNumber := by
  obtain ⟨t, a, sc⟩ := g
  cases sc with
  | nil => simp [startIteration_nil, getPlayerGuess_nil]
  | cons line rest =>
    rw [getPlayerGuess_cons]
    rcases hg : guessOf line with e | v
    · simp [startIteration_cons_error t a line rest e hg]
    · by_cases hv : v = t
      · subst hv
        simp [startIteration_cons_hit v a line rest hg]
      · simp [startIteration_cons_miss t a v line rest hg hv, hv]

theorem startLoop_some (fuel : Nat) (t a : Int) (sc : List Line) (g1 : Game)
    (out : List Output) (h : startLoop fuel ⟨t, a, sc⟩ = some (g1, out)) :
    ∃ pre line, sc = pre ++ line :: g1.scanner ∧ guessOf line = .ok t ∧
      (∀ l ∈ pre, guessOf l ≠ .ok t) ∧ g1.targetNumber = t ∧
      out.getLast? = some (.correct g1.attempts) := by
  induction fuel generalizing a sc out with
  | zero => simp [startLoop] at h
  | succ fuel ih =>
    cases sc with
    | nil =>
      simp only [startLoop, startIteration_nil] at h
      rcases hl : startLoop fuel ⟨t, a, []⟩ with _ | ⟨g2, out2⟩
      · simp [hl] at h
      · simp only [hl, Option.some.injEq, Prod.mk.injEq] at h
        obtain ⟨rfl, -⟩ := h
        obtain ⟨pre, line, hsc, -⟩ := ih a [] out2 hl
        simp at hsc
    | cons line rest =>
      have step : ∀ (a1 : Int) (o : List Output),
          startIteration ⟨t, a, line :: rest⟩ = (⟨t, a1, rest⟩, o, false) →
          guessOf line ≠ .ok t →
          ∃ pre line1, line :: rest = pre ++ line1 :: g1.scanner ∧ guessOf line1 = .ok t ∧
            (∀ l ∈ pre, guessOf l ≠ .ok t) ∧ g1.targetNumber = t ∧
            out.getLast? = some (.correct g1.attempts) := by
        intro a1 o hs hne
        simp only [startLoop, hs] at h
        rcases hl : startLoop fuel ⟨t, a1, rest⟩ with _ | ⟨g2, out2⟩
        · simp [hl] at h
        · simp only [hl, Option.some.injEq, Prod.mk.injEq] at h
          obtain ⟨rfl, rfl⟩ := h
          obtain ⟨pre, line1, hsc, hline, hpre, ht, hout⟩ := ih a1 rest out2 hl
          refine ⟨line :: pre, line1, by simp [hsc], hline, ?_, ht, ?_⟩
          · intro l hl
            rcases List.mem_cons.mp hl with rfl | hl
            · exact hne
            · exact hpre l hl
          · cases out2 with
            | nil => simp at hout
            | cons x xs => rw [List.getLast?_append_cons]; exact hout
      rcases hg : guessOf line with e | v
      · exact step a _ (startIteration_cons_error t a line rest e hg) (by rw [hg]; simp)
      · by_cases hv : v = t
        · subst hv
          simp only [startLoop, startIteration_cons_hit v a line rest hg, Option.some.injEq,
            Prod.mk.injEq] at h
          obtain ⟨rfl, rfl⟩ := h
          exact ⟨[], line, rfl, hg, by simp, rfl, by simp⟩
        · exact step (wrapInt (a + 1)) _ (startIteration_cons_miss t a v line rest hg hv)
            (by rw [hg]; simpa using hv)

theorem Start_eq_some_iff (fuel : Nat) (g g1 : Game) (out : List Output) :
    Start fuel g = some (g1, out) ↔
      ∃ out1, startLoop fuel g = some (g1, out1) ∧ out = Output.welcome :: out1 := by
  unfold Start
  rcases startLoop fuel g with _ | ⟨g2, out2⟩
  · simp
  · simp only [Option.some.injEq, Prod.mk.injEq]
    constructor
    · rintro ⟨rfl, rfl⟩
      exact ⟨out2, ⟨rfl, rfl⟩, rfl⟩
    · rintro ⟨out1, ⟨rfl, rfl⟩, rfl⟩
      exact ⟨rfl, rfl⟩

/-- C6: a pass of the loop of `Start` leaves the loop exactly when
`getPlayerGuess` returned a valid guess equal to the target, so not after an
invalid line and not after a valid guess that differs from the target; and
whenever `Start` returns, the input it consumed ends with a line that is a
valid guess equal to the target, no line before it was one, the target is
unchanged and the last message printed reports the attempt counter. -/
theorem Start_returns_only_on_correct_guess (g : Game) :
    ((startIteration g).2.2 = true ↔ (getPlayerGuess g).1 = .ok g.targetNumber) ∧
    ∀ (fuel : Nat) (g1 : Game) (out : List Output), Start fuel g = some (g1, out) →
      ∃ pre line, g.scanner = pre ++ line :: g1.scanner ∧
        guessOf line = .ok g.targetNumber ∧
        (∀ l ∈ pre, guessOf l ≠ .ok g.targetNumber) ∧
        g1.targetNumber = g.targetNumber ∧
        out.getLast? = some (.correct g1.attempts) := by
  refine ⟨startIteration_break_iff g, ?_⟩
  intro fuel g1 out h
  obtain ⟨out1, h1, rfl⟩ := (Start_eq_some_iff fuel g g1 out).mp h
  obtain ⟨t, a, sc⟩ := g
  obtain ⟨pre, line, hsc, hline, hpre, ht, hout⟩ := startLoop_some fuel t a sc g1 out1 h1
  refine ⟨pre, line, hsc, hline, hpre, ht, ?_⟩
  cases out1 with
  | nil => simp at hout
  | cons x xs => rw [List.getLast?_cons_cons]; exact hout

theorem Start_returns_only_on_correct_guess_witness :
    ∃ pre line, ["abc".toList, "80".toList, "50".toList, "7".toList] =
        pre ++ line :: ["7".toList] ∧
      guessOf line = .ok 50 ∧ (∀ l ∈ pre, guessOf l ≠ .ok 50) ∧
      (50 : Int) = 50 ∧
      [Output.welcome, .guessPrompt, .inputError .NotANumber, .guessPrompt, .tooHigh,
        .guessPrompt, .correct 2].getLast? = some (.correct 2) :=
  (Start_returns_only_on_correct_guess
      ⟨50, 0, ["abc".toList, "80".toList, "50".toList, "7".toList]⟩).2 3
    ⟨50, 2, ["7".toList]⟩
    [.welcome, .guessPrompt, .inputError .NotANumber, .guessPrompt, .tooHigh,
      .guessPrompt, .correct 2] (by decide)

theorem startLoop_run (t : Int) (pre : List (Line × Int)) (last : Line) (rest : List Line)
    (hpre : ∀ p ∈ pre, guessOf p.1 = .ok p.2 ∧ p.2 ≠ t) (hlast : guessOf last = .ok t)
    (a : Int) (fuel : Nat) (hfuel : pre.length < fuel) :
    startLoop fuel ⟨t, a, pre.map Prod.fst ++ last :: rest⟩ =
      some (⟨t, wrapInt (a + pre.length + 1), rest⟩,
        pre.flatMap (fun p => [Output.guessPrompt, if p.2 > t then .tooHigh else .tooLow]) ++
          [.guessPrompt, .correct (wrapInt (a + pre.length + 1))]) := by
  induction pre generalizing a fuel with
  | nil =>
    obtain ⟨fuel, rfl⟩ : ∃ k, fuel = k + 1 := ⟨fuel - 1, by simp at hfuel; omega⟩
    simp [startLoop, startIteration_cons_hit t a last rest hlast]
  | cons p ps ih =>
    obtain ⟨fuel, rfl⟩ : ∃ k, fuel = k + 1 := ⟨fuel - 1, by simp at hfuel; omega⟩
    have hp := hpre p (List.mem_cons_self p ps)
    have hps : ∀ q ∈ ps, guessOf q.1 = .ok q.2 ∧ q.2 ≠ t :=
      fun q hq => hpre q (List.mem_cons_of_mem p hq)
    have hf : ps.length < fuel := by simp at hfuel; omega
    have hrec := ih hps (wrapInt (a + 1)) fuel hf
    have hw : wrapInt (wrapInt (a + 1) + (ps.length : Int) + 1) =
        wrapInt (a + ((ps.length : Int) + 1) + 1) := by
      have h1 : wrapInt (a + 1) + (ps.length : Int) + 1 =
          wrapInt (a + 1) + ((ps.length : Int) + 1) := by omega
      have h2 : a + ((ps.length : Int) + 1) + 1 = a + 1 + ((ps.length : Int) + 1) := by omega
      rw [h1, h2, wrapInt_wrapInt_add]
    rw [hw] at hrec
    simp only [List.map_cons, List.cons_append, startLoop,
      startIteration_cons_miss t a p.2 p.1 _ hp.1 hp.2, hrec, hint]
    simp [List.flatMap_cons]

/-- C7: for a target `t` and valid guesses of which the last equals `t` and
no earlier one does, a session started with zero attempts and run for more
passes than there are earlier guesses returns; it has printed, after the
greeting, for each earlier guess the prompt and "too high" when the guess is
above `t`, "too low" when it is below, then the prompt and the success
message with the number of guesses as attempt count; the attempt counter is
that number and the input after the last guess is left unread.  The count is
the number of guesses as long as that is below 2^63, and in every case the
Go `int` holding it.  The target and the guesses lie in 1..100, and each
earlier guess is above or below `t`. -/
theorem Start_session_transcript (t : Int) (pre : List (Line × Int)) (last : Line)
    (rest : List Line) (hpre : ∀ p ∈ pre, guessOf p.1 = .ok p.2 ∧ p.2 ≠ t)
    (hlast : guessOf last = .ok t) (fuel : Nat) (hfuel : pre.length < fuel) :
    ((pre.length : Int) + 1 < 2 ^ 63 →
      Start fuel ⟨t, 0, pre.map Prod.fst ++ last :: rest⟩ =
        some (⟨t, pre.length + 1, rest⟩,
          Output.welcome ::
            (pre.flatMap
                (fun p => [Output.guessPrompt, if p.2 > t then .tooHigh else .tooLow]) ++
              [.guessPrompt, .correct (pre.length + 1)]))) ∧
    Start fuel ⟨t, 0, pre.map Prod.fst ++ last :: rest⟩ =
      some (⟨t, wrapInt (pre.length + 1), rest⟩,
        Output.welcome ::
          (pre.flatMap (fun p => [Output.guessPrompt, if p.2 > t then .tooHigh else .tooLow]) ++
            [.guessPrompt, .correct (wrapInt (pre.length + 1))])) ∧
    (1 ≤ t ∧ t ≤ 100) ∧
    ∀ p ∈ pre, (1 ≤ p.2 ∧ p.2 ≤ 100) ∧ (p.2 > t ∨ p.2 < t) := by
  have hrun : Start fuel ⟨t, 0, pre.map Prod.fst ++ last :: rest⟩ =
      some (⟨t, wrapInt (pre.length + 1), rest⟩,
        Output.welcome ::
          (pre.flatMap (fun p => [Output.guessPrompt, if p.2 > t then .tooHigh else .tooLow]) ++
            [.guessPrompt, .correct (wrapInt (pre.length + 1))])) := by
    have h := startLoop_run t pre last rest hpre hlast 0 fuel hfuel
    simp only [zero_add] at h
    simp only [Start, h]
  refine ⟨?_, hrun, ((guessOf_ok_iff last t).mp hlast).2, ?_⟩
  · intro hlen
    have hw : wrapInt ((pre.length : Int) + 1) = (pre.length : Int) + 1 :=
      wrapInt_of_range _ (by omega) hlen
    rw [hrun, hw]
  · intro p hp
    have h := hpre p hp
    refine ⟨((guessOf_ok_iff p.1 p.2).mp h.1).2, ?_⟩
    have := h.2
    omega

theorem Start_session_transcript_witness :
    Start 3 ⟨50, 0, ["80".toList, "20".toList, "50".toList]⟩ =
      some (⟨50, 3, []⟩, [.welcome, .guessPrompt, .tooHigh, .guessPrompt, .tooLow,
        .guessPrompt, .correct 3]) :=
  (Start_session_transcript 50 [("80".toList, 80), ("20".toList, 20)] "50".toList []
    (by decide) (by decide) 3 (by decide)).1 (by decide)

theorem startLoop_nil (t a : Int) (fuel : Nat) : startLoop fuel ⟨t, a, []⟩ = none := by
  induction fuel with
  | zero => rfl
  | succ fuel ih => simp [startLoop, startIteration_nil, ih]

/-- C10: on an exhausted input stream `getPlayerGuess` fails with ReadFailure;
the pass of the loop of `Start` prints the prompt and the error, does not
leave the loop and keeps the target, the attempt counter and the (empty)
stream; so after any number of passes the game is the same, and `Start` has
not returned after any number of passes. -/
theorem Start_exhausted_input (t a : Int) :
    getPlayerGuess ⟨t, a, []⟩ = (.error .ReadFailure, ⟨t, a, []⟩, [.guessPrompt]) ∧
    startIteration ⟨t, a, []⟩ =
      (⟨t, a, []⟩, [.guessPrompt, .inputError .ReadFailure], false) ∧
    (∀ k : Nat, (fun g => (startIteration g).1)^[k] ⟨t, a, []⟩ = ⟨t, a, []⟩) ∧
    (∀ fuel : Nat, Start fuel ⟨t, a, []⟩ = none) ∧
    (∀ lines : List Line, (∀ l ∈ lines, guessOf l ≠ .ok t) →
      ∀ fuel : Nat, Start fuel ⟨t, a, lines⟩ = none) := by
  refine ⟨rfl, rfl, ?_, ?_, ?_⟩
  · intro k
    induction k with
    | zero => rfl
    | succ k ih => rw [Function.iterate_succ_apply', ih, startIteration_nil]
  · intro fuel
    simp [Start, startLoop_nil]
  · intro lines hlines fuel
    rcases hs : Start fuel ⟨t, a, lines⟩ with _ | ⟨g1, out⟩
    · rfl
    · obtain ⟨out1, h1, -⟩ := (Start_eq_some_iff fuel _ g1 out).mp hs
      obtain ⟨pre, line, hsc, hline, -⟩ := startLoop_some fuel t a lines g1 out1 h1
      exact absurd hline (hlines line (by simp [hsc]))

theorem Start_exhausted_input_witness :
    Start 1000 ⟨50, 0, []⟩ = none ∧
    Start 1000 ⟨50, 0, ["80".toList, "abc".toList]⟩ = none :=
  ⟨(Start_exhausted_input 50 0).2.2.2.1 1000,
   (Start_exhausted_input 50 0).2.2.2.2 ["80".toList, "abc".toList] (by decide) 1000⟩

/-! ## askContinue -/

theorem askContinue_yes (tbl : Char → Char) (line : Line) (rest : List Line)
    (h : normalize tbl line ∈ affirmative) :
    askContinue tbl (line :: rest) = (true, [.continuePrompt]) := by
  simp only [affirmative, List.mem_cons, List.mem_singleton, List.not_mem_nil, or_false,
    normalize] at h
  simp only [askContinue]
  rw [if_pos h]

theorem askContinue_no (tbl : Char → Char) (line : Line) (rest : List Line)
    (h : normalize tbl line ∈ negative) :
    askContinue tbl (line :: rest) = (false, [.continuePrompt]) := by
  simp only [negative, List.mem_cons, List.mem_singleton, List.not_mem_nil, or_false,
    normalize] at h
  have hy : ¬ (ToLower tbl (TrimSpace line) = "y".toList ∨
      ToLower tbl (TrimSpace line) = "yes".toList ∨
      ToLower tbl (TrimSpace line) = "是".toList) := by
    rcases h with h | h | h <;> rw [h] <;> decide
  simp only [askContinue]
  rw [if_neg hy, if_pos h]

theorem askContinue_other (tbl : Char → Char) (line : Line) (rest : List Line)
    (hy : normalize tbl line ∉ affirmative) (hn : normalize tbl line ∉ negative) :
    askContinue tbl (line :: rest) =
      ((askContinue tbl rest).1,
        [.continuePrompt, .continueInvalid] ++ (askContinue tbl rest).2) := by
  simp only [affirmative, negative, List.mem_cons, List.mem_singleton, List.not_mem_nil,
    or_false, normalize] at hy hn
  simp only [askContinue]
  rw [if_neg hy, if_neg hn]

theorem askContinue_skip (tbl : Char → Char) (pre rest : List Line)
    (hpre : ∀ l ∈ pre, normalize tbl l ∉ affirmative ∧ normalize tbl l ∉ negative) :
    askContinue tbl (pre ++ rest) =
      ((askContinue tbl rest).1,
        pre.flatMap (fun _ => [Output.continuePrompt, .continueInvalid]) ++
          (askContinue tbl rest).2) := by
  induction pre with
  | nil => simp
  | cons l ls ih =>
    have hl := hpre l (List.mem_cons_self l ls)
    have hls := ih (fun x hx => hpre x (List.mem_cons_of_mem l hx))
    rw [List.cons_append, askContinue_other tbl l (ls ++ rest) hl.1 hl.2, hls]
    simp [List.flatMap_cons]

/-- C8: `askContinue` skips every line whose trimmed, lower-cased text is
neither an affirmative nor a negative token, printing the prompt and the
hint for it, and answers with the first line that is one: true when it is
affirmative, false when it is negative; the lines after it are not read. -/
theorem askContinue_first_token (tbl : Char → Char) (pre : List Line) (line : Line)
    (post : List Line)
    (hpre : ∀ l ∈ pre, normalize tbl l ∉ affirmative ∧ normalize tbl l ∉ negative) :
    (normalize tbl line ∈ affirmative →
      askContinue tbl (pre ++ line :: post) =
        (true, pre.flatMap (fun _ => [Output.continuePrompt, .continueInvalid]) ++
          [.continuePrompt])) ∧
    (normalize tbl line ∈ negative →
      askContinue tbl (pre ++ line :: post) =
        (false, pre.flatMap (fun _ => [Output.continuePrompt, .continueInvalid]) ++
          [.continuePrompt])) ∧
    (normalize tbl line ∉ affirmative → normalize tbl line ∉ negative →
      askContinue tbl (pre ++ line :: post) =
        ((askContinue tbl post).1,
          (pre ++ [line]).flatMap (fun _ => [Output.continuePrompt, .continueInvalid]) ++
            (askContinue tbl post).2)) := by
  refine ⟨fun h => ?_, fun h => ?_, fun hy hn => ?_⟩
  · rw [askContinue_skip tbl pre _ hpre, askContinue_yes tbl line post h]
  · rw [askContinue_skip tbl pre _ hpre, askContinue_no tbl line post h]
  · have hall : ∀ l ∈ pre ++ [line],
        normalize tbl l ∉ affirmative ∧ normalize tbl l ∉ negative := by
      intro l hl
      rcases List.mem_append.mp hl with hl | hl
      · exact hpre l hl
      · rw [List.mem_singleton.mp hl]
        exact ⟨hy, hn⟩
    have h := askContinue_skip tbl (pre ++ [line]) post hall
    rwa [List.append_assoc, List.singleton_append] at h

theorem askContinue_first_token_witness :
    (askContinue id ["y".toList]).1 = true ∧
    (askContinue id ["Y".toList]).1 = true ∧
    (askContinue id ["yes".toList]).1 = true ∧
    (askContinue id [" Y ".toList]).1 = true ∧
    (askContinue id ["n".toList]).1 = false ∧
    (askContinue id ["no".toList]).1 = false ∧
    askContinue id ["maybe".toList, "y".toList, "n".toList] =
      (true, [.continuePrompt, .continueInvalid, .continuePrompt]) ∧
    askContinue id ["maybe".toList, "否".toList, "y".toList] =
      (false, [.continuePrompt, .continueInvalid, .continuePrompt]) :=
  ⟨congrArg Prod.fst
    ((askContinue_first_token id [] "y".toList [] (by decide)).1 (by decide)),
   congrArg Prod.fst
    ((askContinue_first_token id [] "Y".toList [] (by decide)).1 (by decide)),
   congrArg Prod.fst
    ((askContinue_first_token id [] "yes".toList [] (by decide)).1 (by decide)),
   congrArg Prod.fst
    ((askContinue_first_token id [] " Y ".toList [] (by decide)).1 (by decide)),
   congrArg Prod.fst
    ((askContinue_first_token id [] "n".toList [] (by decide)).2.1 (by decide)),
   congrArg Prod.fst
    ((askContinue_first_token id [] "no".toList [] (by decide)).2.1 (by decide)),
   (askContinue_first_token id ["maybe".toList] "y".toList ["n".toList]
     (by decide)).1 (by decide),
   (askContinue_first_token id ["maybe".toList] "否".toList ["y".toList]
     (by decide)).2.1 (by decide)⟩

/-- C9: when no line of the input is an affirmative or negative token after
trimming and lower-casing (the empty input included), `askContinue` returns
false once the input has ended, having printed the prompt and the hint for
each line, then the prompt and the read-failure message. -/
theorem askContinue_end_of_input (tbl : Char → Char) (lines : List Line)
    (h : ∀ l ∈ lines, normalize tbl l ∉ affirmative ∧ normalize tbl l ∉ negative) :
    askContinue tbl lines =
      (false, lines.flatMap (fun _ => [Output.continuePrompt, .continueInvalid]) ++
        [.continuePrompt, .continueReadFailure]) := by
  have hs := askContinue_skip tbl lines [] h
  rw [List.append_nil] at hs
  rw [hs]
  rfl

theorem askContinue_end_of_input_witness :
    askContinue id [] = (false, [.continuePrompt, .continueReadFailure]) ∧
    askContinue id ["maybe".toList, "".toList] =
      (false, [.continuePrompt, .continueInvalid, .continuePrompt, .continueInvalid,
        .continuePrompt, .continueReadFailure]) :=
  ⟨askContinue_end_of_input id [] (by decide),
   askContinue_end_of_input id ["maybe".toList, "".toList] (by decide)⟩

end GuessGame
